import Mathlib

/-!
Verification development for the agent audit / validation / consistency
tooling (scripts/audit_agent.py, scripts/validate_agent.py,
scripts/consistency_check.py).

The Python code is shallowly embedded:

* parsed YAML values become the inductive type `Yaml` (null, booleans,
  strings, integers, string-keyed mappings); Python dictionaries are
  association lists looked up front-to-back (YAML mappings have unique
  keys, so the representations agree on every parser output);
* Python floats become `ℚ` (every score literal in the source is an exact
  decimal, and the checks proved here do not probe binary-float rounding
  artefacts);
* Python attribute errors (calling `.get` / `.items()` on a non-mapping)
  become the `Except PyFault` monad: a raised exception aborts the
  computation exactly as in the source, where no handler surrounds these
  accesses;
* regular expressions are embedded by their backtracking semantics on
  `List Char` (greedy `\s*`, non-greedy `(.*?)`, `MULTILINE` anchors,
  `finditer` resuming after each non-overlapping match), with the `\s`
  class taken as the ASCII whitespace characters.
-/

/-- A parsed YAML value as the audit scripts consume it. -/
inductive Yaml where
  | null : Yaml
  | bool : Bool → Yaml
  | str : String → Yaml
  | int : Int → Yaml
  | map : List (String × Yaml) → Yaml

/-- First-match association-list lookup: Python `d[k]` / `d.get(k)` on the
unique-keyed dictionaries produced by the YAML parser. -/
def assoc : List (String × α) → String → Option α
  | [], _ => none
  | (k, v) :: rest, key => if k = key then some v else assoc rest key

/-- Python truthiness of a parsed YAML value (`if v:`). -/
def Yaml.truthy : Yaml → Bool
  | .null => false
  | .bool b => b
  | .str s => s != ""
  | .int n => n != 0
  | .map es => !es.isEmpty

/-- Python `v == s` for a YAML value `v` and a string literal `s`. -/
def Yaml.eqStr : Yaml → String → Bool
  | .str t, s => t == s
  | _, _ => false

/-- The exceptions the audit pipeline can raise (and never catches). -/
inductive PyFault where
  | attributeError : PyFault
  | typeError : PyFault
deriving DecidableEq, Repr

/-- Python `v.get(key)`: total on mappings (default `None`), raises
`AttributeError` on any other value. -/
def dynGet (v : Yaml) (key : String) : Except PyFault Yaml :=
  match v with
  | .map es => .ok ((assoc es key).getD .null)
  | _ => .error .attributeError

/-- Python `v.get(key, dflt)`: total on mappings, raises `AttributeError`
on any other value. -/
def dynGetD (v : Yaml) (key : String) (dflt : Yaml) : Except PyFault Yaml :=
  match v with
  | .map es => .ok ((assoc es key).getD dflt)
  | _ => .error .attributeError

/-- Python `v.items()` (as used on the `tools` argument): the entry list of
a mapping, `AttributeError` otherwise. -/
def asItems (v : Yaml) : Except PyFault (List (String × Yaml)) :=
  match v with
  | .map es => .ok es
  | _ => .error .attributeError

/-- `d.get(key)` on an entry list, with Python's `None` default. -/
def lookupD (es : List (String × Yaml)) (key : String) : Yaml :=
  (assoc es key).getD .null

/-- `any(v == 'deny' for v in bash_perms.values())`. -/
def hasDenyEntry (es : List (String × Yaml)) : Bool :=
  es.any (fun kv => kv.2.eqStr "deny")

/-- `'*' in bash_perms`. -/
def hasStarKey (es : List (String × Yaml)) : Bool :=
  es.any (fun kv => kv.1 == "*")

/-- `bash_perms.get('*') == 'ask'`. -/
def askDefault (es : List (String × Yaml)) : Bool :=
  (lookupD es "*").eqStr "ask"

/-- The risk tiers of `AgentAuditor._assess_risk_level`. -/
inductive Risk where
  | LOW : Risk
  | MEDIUM : Risk
  | HIGH : Risk
deriving DecidableEq, Repr

/-- `AgentAuditor._assess_risk_level(tools, permission)`
(audit_agent.py lines 266-279), translated statement by statement:
if `tools.get('bash')` is truthy, fetch `permission.get('bash', {})`;
when that is a mapping return MEDIUM exactly when it has a `deny`-valued
entry and its `'*'` entry equals `'ask'`, else HIGH; when it is not a
mapping return HIGH.  Without bash, `write` or `edit` gives MEDIUM,
otherwise LOW. -/
def assess_risk_level (tools permission : Yaml) : Except PyFault Risk := do
  let b ← dynGet tools "bash"
  if b.truthy then do
    let bp ← dynGetD permission "bash" (.map [])
    match bp with
    | .map es =>
        if hasDenyEntry es && askDefault es then pure .MEDIUM else pure .HIGH
    | _ => pure .HIGH
  else do
    let w ← dynGet tools "write"
    if w.truthy then pure .MEDIUM
    else do
      let e ← dynGet tools "edit"
      if e.truthy then pure .MEDIUM else pure .LOW

/-- The spec's §4.4 risk cascade exactly as claim C1 words it: HIGH if
run-command is enabled and either no permission rules exist for it or it
lacks **both** a deny entry and a wildcard default set to ask; MEDIUM if
run-command is enabled with both a deny entry and a wildcard ask default,
or if write/edit is enabled without run-command; LOW otherwise, evaluated
top-to-bottom. -/
def specRiskCascade (t p : List (String × Yaml)) : Risk :=
  let bashOn := (lookupD t "bash").truthy
  let bp := assoc p "bash"
  let noRules :=
    match bp with
    | none => true
    | some (.map es) => es.isEmpty
    | some _ => false
  let denyE :=
    match bp with
    | some (.map es) => hasDenyEntry es
    | _ => false
  let askE :=
    match bp with
    | some (.map es) => askDefault es
    | _ => false
  if bashOn && (noRules || (!denyE && !askE)) then .HIGH
  else if (bashOn && denyE && askE) ||
      (((lookupD t "write").truthy || (lookupD t "edit").truthy) && !bashOn) then .MEDIUM
  else .LOW

/-- The amended cascade (claim C1 as corrected): with run-command enabled,
MEDIUM needs both a deny entry and a wildcard `ask` default in a
pattern-map permission entry, and every other bash-enabled shape (entry
missing, not a map, missing the deny entry **or** missing the `ask`
default) is HIGH; without run-command, write or edit gives MEDIUM,
otherwise LOW. -/
def amendedRiskCascade (t p : List (String × Yaml)) : Risk :=
  if (lookupD t "bash").truthy then
    match (assoc p "bash").getD (.map []) with
    | .map es => if hasDenyEntry es && askDefault es then .MEDIUM else .HIGH
    | _ => .HIGH
  else if (lookupD t "write").truthy || (lookupD t "edit").truthy then .MEDIUM
  else .LOW

/-- A tree-scan consistency issue (consistency_check.py `Issue`). -/
structure Issue where
  severity : String
  file : String
  line : Option Nat
  message : String
  suggestion : Option String := none
deriving DecidableEq, Repr

/-- The aggregate report (consistency_check.py `ConsistencyReport`). -/
structure ConsistencyReport where
  issues : List Issue
  files_checked : Nat := 0
  yaml_blocks_checked : Nat := 0

/-- `ConsistencyReport.errors`. -/
def ConsistencyReport.errors (r : ConsistencyReport) : List Issue :=
  r.issues.filter (fun i => i.severity == "error")

/-- `ConsistencyReport.warnings`. -/
def ConsistencyReport.warnings (r : ConsistencyReport) : List Issue :=
  r.issues.filter (fun i => i.severity == "warning")

/-- `ConsistencyReport.infos`. -/
def ConsistencyReport.infos (r : ConsistencyReport) : List Issue :=
  r.issues.filter (fun i => i.severity == "info")

/-- `ConsistencyReport.is_consistent`. -/
def ConsistencyReport.is_consistent (r : ConsistencyReport) : Bool :=
  r.errors.length == 0

/-- The value `print_report` returns, which `main` turns into the process
exit status of the tree scan (consistency_check.py lines 318-372). -/
def print_report_exit (r : ConsistencyReport) : Nat :=
  if r.is_consistent then 0 else 1

/-- `needle` is a prefix of `hay` (character lists). -/
def prefixOf : List Char → List Char → Bool
  | [], _ => true
  | _ :: _, [] => false
  | a :: as, b :: bs => a == b && prefixOf as bs

/-- Python `needle in hay` on strings: literal substring search. -/
def containsSub : List Char → List Char → Bool
  | n, [] => prefixOf n []
  | n, hay@(_ :: rest) => prefixOf n hay || containsSub n rest

/-- Python `needle in hay` lifted to `String`. -/
def strContains (needle hay : String) : Bool :=
  containsSub needle.toList hay.toList

/-- Python `s.lower()` on the ASCII strings these scripts handle. -/
def pyLowerStr (s : String) : String := String.mk (s.data.map Char.toLower)

/-- `s.split(sep)` for a one-character separator, as Python splits:
`""` gives `[""]`, a trailing separator yields a final empty piece. -/
def splitOnCharGo (sep : Char) (acc : List Char) : List Char → List String
  | [] => [String.mk acc.reverse]
  | c :: rest =>
    if c = sep then String.mk acc.reverse :: splitOnCharGo sep [] rest
    else splitOnCharGo sep (c :: acc) rest

/-- `s.split(sep)` on a `String`. -/
def splitOnChar (sep : Char) (s : String) : List String :=
  splitOnCharGo sep [] s.toList

/-- The ASCII characters of the regex class `\s`. -/
def isWs (c : Char) : Bool :=
  c == ' ' || c == '\t' || c == '\n' || c == '\r' || c == '\x0b' || c == '\x0c'

/-- The backtick character, `'\x60'`. -/
def btick : Char := Char.ofNat 96

/-- Python `round` to the nearest integer, ties to even. -/
def roundHalfEven (q : ℚ) : ℤ :=
  let f := ⌊q⌋
  let r := q - f
  if r < 1/2 then f
  else if 1/2 < r then f + 1
  else if f % 2 = 0 then f else f + 1

/-- Python `round(q, 2)` on the idealised rational scores. -/
def round2 (q : ℚ) : ℚ := (roundHalfEven (q * 100) : ℚ) / 100

/-- The count of capabilities set to boolean `true`
(`len([t for t, v in tools.items() if v is True])`). -/
def enabledTrueCount (tl : List (String × Yaml)) : Nat :=
  (tl.filter (fun kv => match kv.2 with | .bool true => true | _ => false)).length

/-- The kitchen-sink deduction of `_audit_tool_safety`: 1.0 when at least
9 capabilities are enabled `true`. -/
def dKitchenSink (tl : List (String × Yaml)) : ℚ :=
  if 9 ≤ enabledTrueCount tl then 1 else 0

/-- The write-without-read deduction of `_audit_tool_safety`
(audit_agent.py lines 144-148): 0.5 when `tools.get('write')` is truthy
and `tools.get('read')` is not. -/
def dWriteNoRead (tl : List (String × Yaml)) : ℚ :=
  if (lookupD tl "write").truthy && !(lookupD tl "read").truthy then 1/2 else 0

/-- The edit-without-read deduction of `_audit_tool_safety`
(audit_agent.py lines 150-154). -/
def dEditNoRead (tl : List (String × Yaml)) : ℚ :=
  if (lookupD tl "edit").truthy && !(lookupD tl "read").truthy then 1/2 else 0

/-- `AgentAuditor._audit_tool_safety(tools, permission)` (audit_agent.py
lines 108-156): the category score it stores.  The source decrements a
local `score` starting at 5.0 and floors it at the end with `max(0, score)`;
the deductions are reproduced in the source's order.  The finding and
recommendation strings appended alongside each deduction do not feed the
score and are elided.  `permission.get('bash')` is only evaluated inside
the `tools.get('bash')` branch, exactly as in the source.
`bashPermDeduction` is that branch (audit_agent.py lines 122-142): 1.5
when no truthy permission entry exists for bash, else 0.5 when the
pattern map has no deny entries plus 0.3 when it has no `'*'` entry, and
nothing when the entry is not a mapping. -/
def bashPermDeduction (tl : List (String × Yaml)) (permission : Yaml) :
    Except PyFault ℚ :=
  if (lookupD tl "bash").truthy then do
    let pb ← dynGet permission "bash"
    if !pb.truthy then pure (3/2 : ℚ)
    else do
      let bp ← dynGetD permission "bash" (.map [])
      match bp with
      | .map es =>
          pure ((if !hasDenyEntry es then (1/2 : ℚ) else 0) +
                (if !hasStarKey es then (3/10 : ℚ) else 0))
      | _ => pure (0 : ℚ)
  else pure (0 : ℚ)

/-- `AgentAuditor._audit_tool_safety(tools, permission)` (audit_agent.py
lines 108-156): the stored category score, decremented from 5.0 and
floored at 0.0 in source order. -/
def audit_tool_safety (tools permission : Yaml) : Except PyFault ℚ := do
  let tl ← asItems tools
  let dBash ← bashPermDeduction tl permission
  pure (max 0 (5 - dKitchenSink tl - dBash - dWriteNoRead tl - dEditNoRead tl))

/-- Claim C5's deduction table, written from the spec's words: 5.0 minus
(1.0 if at least 9 capabilities are enabled true; if run-command is
enabled: 1.5 if no permission rule exists for it, else 0.5 if its
permission map has no deny-valued entries plus 0.3 if it has no wildcard
`*` entry; 0.5 if write is enabled without read; 0.5 if edit is enabled
without read), floored at 0.0.  "No permission rule exists" reads as: the
`bash` permission entry is absent or is an empty pattern map. -/
def specToolSafety (tl pEs : List (String × Yaml)) : ℚ :=
  let noRule :=
    match assoc pEs "bash" with
    | none => true
    | some (.map es) => es.isEmpty
    | some _ => false
  let dBash :=
    if (lookupD tl "bash").truthy then
      if noRule then (3/2 : ℚ)
      else
        match assoc pEs "bash" with
        | some (.map es) =>
            (if !hasDenyEntry es then (1/2 : ℚ) else 0) +
            (if !hasStarKey es then (3/10 : ℚ) else 0)
        | _ => 0
    else 0
  max 0 (5 - dKitchenSink tl - dBash - dWriteNoRead tl - dEditNoRead tl)

/-- A permission value of the schema of §4.2: a pattern map, or a
(non-empty) enum string such as `allow`/`ask`/`deny`. -/
def schemaPermVal : Yaml → Bool
  | .map _ => true
  | .str s => s != ""
  | _ => false

/-- The seven safety keywords of `_audit_security`. -/
def safetyKeywords : List String :=
  ["safety", "confirm", "always", "never", "backup", "verify", "check"]

/-- `sum(1 for kw in safety_keywords if kw in body_lower)`. -/
def safetyCount (bodyLower : String) : Nat :=
  (safetyKeywords.filter (fun kw => strContains kw bodyLower)).length

/-- `AgentAuditor._audit_security(frontmatter, body)` (audit_agent.py
lines 197-237): the category score.  `tools` and `permission` are fetched
from the frontmatter with `{}` defaults; the body is lowercased for every
keyword test; `permission.get('bash', {})` is only read inside the bash
branch.  `securityBashDeduction` is that branch (audit_agent.py lines
204-221): 1.5 when fewer than three safety keywords appear in the
lowercased body, plus 0.5 when the bash permission map has fewer than two
deny-valued entries. -/
def securityBashDeduction (bashOn : Bool) (permission : Yaml) (bl : String) :
    Except PyFault ℚ :=
  if bashOn then do
    let d1 := if safetyCount bl < 3 then (3/2 : ℚ) else 0
    let bp ← dynGetD permission "bash" (.map [])
    let d2 :=
      match bp with
      | .map es =>
          if (es.filter (fun kv => kv.2.eqStr "deny")).length < 2
          then (1/2 : ℚ) else 0
      | _ => 0
    pure (d1 + d2)
  else pure (0 : ℚ)

/-- `AgentAuditor._audit_security(frontmatter, body)` (audit_agent.py
lines 197-237): the stored category score. -/
def audit_security (fm : Yaml) (body : String) : Except PyFault ℚ := do
  let tools ← dynGetD fm "tools" (.map [])
  let permission ← dynGetD fm "permission" (.map [])
  let bl := pyLowerStr body
  let b ← dynGet tools "bash"
  let dBash ← securityBashDeduction b.truthy permission bl
  let w ← dynGet tools "write"
  let dWrite :=
    if w.truthy && !strContains "overwrite" bl && !strContains "exist" bl
    then (1/2 : ℚ) else 0
  let r ← dynGet tools "read"
  let dSecrets :=
    if (r.truthy || b.truthy) && !strContains "secret" bl &&
       !strContains "password" bl && !strContains "credential" bl
    then (3/10 : ℚ) else 0
  pure (max 0 (5 - dBash - dWrite - dSecrets))

/-- Python `len(v)` as `_audit_frontmatter_quality` may apply it to the
description value: defined on strings and mappings, `TypeError`
otherwise. -/
def pyLen : Yaml → Except PyFault Nat
  | .str s => .ok s.length
  | .map es => .ok es.length
  | _ => .error .typeError

/-- Python `needle in v`: substring test on strings, key test on mappings,
`TypeError` otherwise. -/
def pyContains (needle : String) : Yaml → Except PyFault Bool
  | .str s => .ok (strContains needle s)
  | .map es => .ok (es.any (fun kv => kv.1 == needle))
  | _ => .error .typeError

/-- Python `v.lower()`: defined on strings only, `AttributeError`
otherwise. -/
def pyLower : Yaml → Except PyFault String
  | .str s => .ok (pyLowerStr s)
  | _ => .error .attributeError

/-- The trigger phrases of `_audit_frontmatter_quality`. -/
def triggerKeywords : List String :=
  ["use when", "use for", "invoke when", "use proactively"]

/-- The description deductions of `_audit_frontmatter_quality`
(audit_agent.py lines 74-97): 2.0 for a falsy description, otherwise the
sum of the length, example-block and trigger-keyword deductions, each
evaluated in source order (so a non-string description faults exactly
where the source would). -/
def descDeduction (desc : Yaml) : Except PyFault ℚ :=
  if !desc.truthy then pure 2
  else do
    let n ← pyLen desc
    let hasEx ← pyContains "<example>" desc
    let low ← pyLower desc
    pure ((if n < 50 then (1/2 : ℚ) else 0) +
          (if !hasEx then (1/2 : ℚ) else 0) +
          (if !(triggerKeywords.any (fun kw => strContains kw low)) then (3/10 : ℚ) else 0))

/-- The mode deduction of `_audit_frontmatter_quality` (audit_agent.py
lines 99-104): 0.5 when the mode is truthy and not one of the three valid
modes. -/
def modeDeduction (mode : Yaml) : ℚ :=
  if mode.truthy &&
     !(mode.eqStr "primary" || mode.eqStr "subagent" || mode.eqStr "all")
  then 1/2 else 0

/-- `AgentAuditor._audit_frontmatter_quality(frontmatter)` (audit_agent.py
lines 70-106): the category score. -/
def audit_frontmatter_quality (fm : Yaml) : Except PyFault ℚ := do
  let desc ← dynGetD fm "description" (.str "")
  let dD ← descDeduction desc
  let mode ← dynGet fm "mode"
  pure (max 0 (5 - dD - modeDeduction mode))

/-- The largest index `i` with `1 ≤ i ≤ bound` whose character exists and
is not a newline: the backtracking split between `\s+` and `.+`. -/
def headerTailIdx (after : List Char) : Nat → Option Nat
  | 0 => none
  | i + 1 =>
    match after[i + 1]? with
    | some c => if c != '\n' then some (i + 1) else headerTailIdx after i
    | none => headerTailIdx after i

/-- One step of `re.finditer(r'^##\s+(.+)$', body, re.MULTILINE)` at a
line start on `'#' :: '#' :: after`: `\s+` greedily takes the maximal
whitespace run (newlines included), backs off while the following `.+`
(one or more non-newline characters) has nothing to match, and the match
ends where `.+` stops.  Returns the number of characters of `after`
consumed, or `none` when no match starts here. -/
def headerTailLen (after : List Char) : Option Nat :=
  let m := (after.takeWhile isWs).length
  match headerTailIdx after m with
  | some i => some (i + ((after.drop i).takeWhile (fun c => c != '\n')).length)
  | none => none

/-- `len(re.findall(r'^##\s+(.+)$', body, re.MULTILINE))`: scan the text
with fuel (one unit per consumed character suffices), matching only at
line starts and resuming after each non-overlapping match. -/
def scanHeaders : Nat → Bool → List Char → Nat
  | 0, _, _ => 0
  | _ + 1, _, [] => 0
  | f + 1, atStart, c :: cs =>
    if atStart && c == '#' then
      match cs with
      | c2 :: after =>
        if c2 == '#' then
          match headerTailLen after with
          | some n => 1 + scanHeaders f false (after.drop n)
          | none => scanHeaders f false cs
        else scanHeaders f (c == '\n') cs
      | [] => 0
    else scanHeaders f (c == '\n') cs

/-- `len(re.findall(r'```', body))`: non-overlapping count of triple
backticks. -/
def countFence : List Char → Nat
  | c1 :: c2 :: c3 :: rest =>
    if c1 == btick && c2 == btick && c3 == btick then 1 + countFence rest
    else countFence (c2 :: c3 :: rest)
  | _ => 0

/-- `AgentAuditor._audit_instruction_quality(body)` (audit_agent.py lines
158-195): the category score.  `len(body.split('\n'))` equals the newline
count plus one. -/
def audit_instruction_quality (body : String) : ℚ :=
  let l := body.toList
  let d1 := if scanHeaders (l.length + 1) true l < 3 then (1 : ℚ) else 0
  let d2 := if countFence l < 4 then (1/2 : ℚ) else 0
  let bl := pyLowerStr body
  let d3 := if !strContains "workflow" bl then (1/2 : ℚ) else 0
  let d4 := if !strContains "responsibilit" bl then (3/10 : ℚ) else 0
  let d5 := if l.count '\n' + 1 < 50 then (1/2 : ℚ) else 0
  max 0 (5 - d1 - d2 - d3 - d4 - d5)

/-- `AgentAuditor._audit_documentation(body)` (audit_agent.py lines
239-264): the category score. -/
def audit_documentation (body : String) : ℚ :=
  let bl := pyLowerStr body
  let d1 := if !strContains "overview" bl then (1/2 : ℚ) else 0
  let d2 := if !strContains "responsibilit" bl then (1/2 : ℚ) else 0
  let d3 := if !strContains "example" bl then (1/2 : ℚ) else 0
  let d4 := if !strContains "error" bl then (1/2 : ℚ) else 0
  let d5 :=
    if !strContains "limitation" bl && !strContains "cannot" bl
    then (3/10 : ℚ) else 0
  max 0 (5 - d1 - d2 - d3 - d4 - d5)

/-- What `AgentAuditor.audit` produces once the file is read: either the
result-carrying failure dictionary `{'error': ...}` or the report with its
five named category scores, the overall score and the risk level. -/
inductive AuditOutcome where
  | failed : String → AuditOutcome
  | report : List (String × ℚ) → ℚ → Risk → AuditOutcome
deriving DecidableEq, Repr

/-- `AgentAuditor.audit` (audit_agent.py lines 23-55) from the parsed
frontmatter (`none` models `yaml.safe_load` returning `None` or the
regex/parse failure path of `_extract_frontmatter`) and the body: the
`if frontmatter is None` guard, then the five category audits in source
order, the overall score `round(sum(scores)/len(scores), 2)` over the five
stored scores, and the risk level.  `frontmatter.get('tools', {})` and
`frontmatter.get('permission', {})` are each read where the source
reads them (their second read at line 54 yields the same values and is
shared). -/
def audit (parsed : Option Yaml) (body : String) : Except PyFault AuditOutcome :=
  match parsed with
  | none => .ok (.failed "No valid frontmatter found")
  | some fm => do
      let s1 ← audit_frontmatter_quality fm
      let tools ← dynGetD fm "tools" (.map [])
      let permission ← dynGetD fm "permission" (.map [])
      let s2 ← audit_tool_safety tools permission
      let s3 := audit_instruction_quality body
      let s4 ← audit_security fm body
      let s5 := audit_documentation body
      let overall := round2 ((s1 + s2 + s3 + s4 + s5) / 5)
      let rk ← assess_risk_level tools permission
      pure (.report
        [("frontmatter_quality", s1), ("tool_safety", s2),
         ("instruction_quality", s3), ("security", s4), ("documentation", s5)]
        overall rk)

/-- The length of the maximal whitespace run at the front of `l`. -/
def wsRunLen (l : List Char) : Nat := (l.takeWhile isWs).length

/-- The candidate lengths for a greedy `\s*` that must be followed by a
literal `\n`: every `k` inside the whitespace run with `l[k] = '\n'`, in
decreasing order (the engine tries the longest first). -/
def nlCands (l : List Char) : List Nat :=
  ((List.range (wsRunLen l)).filter (fun k => l[k]? == some '\n')).reverse

/-- `\s*\n(.*)` with `re.DOTALL`: the trailing `(.*)` always succeeds, so
the longest feasible `\s*` wins and the remainder after its `\n` is
group text. -/
def endWs (l : List Char) : Option (List Char) :=
  match nlCands l with
  | [] => none
  | k :: _ => some (l.drop (k + 1))

/-- `(.*?)\n---\s*\n(.*)` with `re.DOTALL`: the non-greedy group grows
left to right; at each position a literal `'\n','-','-','-'` is tried and,
if its `\s*\n` tail fails, the group grows past the newline. -/
def scanEnd : List Char → Option (List Char × List Char)
  | [] => none
  | c :: cs =>
    if c == '\n' && cs.take 3 == ['-', '-', '-'] then
      match endWs (cs.drop 3) with
      | some body => some ([], body)
      | none => (scanEnd cs).map (fun p => (c :: p.1, p.2))
    else (scanEnd cs).map (fun p => (c :: p.1, p.2))

/-- Try the `\s*` candidates of the opening delimiter in greedy order,
running the rest of the pattern after each. -/
def afterOpenGo : List Nat → List Char → Option (List Char × List Char)
  | [], _ => none
  | k :: ks, l =>
    match scanEnd (l.drop (k + 1)) with
    | some r => some r
    | none => afterOpenGo ks l

/-- `\s*\n(.*?)\n---\s*\n(.*)`: what follows the literal `---` of the
opening delimiter. -/
def afterOpen (l : List Char) : Option (List Char × List Char) :=
  afterOpenGo (nlCands l) l

/-- The regex split of `_extract_frontmatter` (audit_agent.py lines 57-68
and validate_agent.py lines 63-78, both
`re.match(r'^---\s*\n(.*?)\n---\s*\n(.*)', content, re.DOTALL)`): the two
captured groups (the metadata-block text and the body), or `none` when
the pattern does not match.  The source then parses group 1 with
`yaml.safe_load` and returns the parsed mapping with group 2. -/
def extract_frontmatter_split (content : String) : Option (String × String) :=
  match content.toList with
  | '-' :: '-' :: '-' :: rest =>
      (afterOpen rest).map (fun p => (String.mk p.1, String.mk p.2))
  | _ => none

/-- `content.split('\n')`, as `_check_section_numbering` splits the index
document. -/
def splitLines (s : String) : List String := splitOnChar '\n' s

/-- Pair each element with its 1-based position (Python
`enumerate(lines, 1)`). -/
def enumFrom : Nat → List α → List (Nat × α)
  | _, [] => []
  | n, a :: l => (n, a) :: enumFrom (n + 1) l

/-- `re.match(r'^(#{2,4})\s*(\d+)\.\s+(.+)', line)` on one line of the
index document: the structural level (number of `#`), the digit string
and the title, or `none`.  `#{2,4}` can only match the whole leading `#`
run (a fifth `#` blocks the following `\s*\d`), `\s*` can only stop at
the first non-whitespace (a digit), and `\s+(.+)` backtracks off the
final whitespace character when nothing non-whitespace follows, exactly
as the engine does. -/
def matchNumberedHeading (line : String) : Option (Nat × String × String) :=
  let cs := line.toList
  let n := (cs.takeWhile (fun c => c == '#')).length
  if n < 2 || 4 < n then none
  else
    let r1 := cs.drop n
    let r2 := r1.drop (wsRunLen r1)
    let ds := r2.takeWhile Char.isDigit
    if ds.isEmpty then none
    else
      match r2.drop ds.length with
      | '.' :: tail =>
        match headerTailIdx tail (wsRunLen tail) with
        | some i =>
            some (n, String.mk ds, String.mk ((tail.drop i).takeWhile (fun c => c != '\n')))
        | none => none
      | _ => none

/-- The numbered headings of the index document, in document order:
(structural level, 1-based line number, the stored heading string
`f"{number}. {title}"`). -/
def headingsOf (content : String) : List (Nat × Nat × String) :=
  (enumFrom 1 (splitLines content)).filterMap (fun p =>
    (matchNumberedHeading p.2).map (fun m => (m.1, p.1, m.2.1 ++ ". " ++ m.2.2)))

/-- The headings collected at one structural level (`heading_numbers[level]`):
(line number, heading string) in document order. -/
def levelHeadings (content : String) (lvl : Nat) : List (Nat × String) :=
  (headingsOf content).filterMap (fun x =>
    if x.1 = lvl then some (x.2.1, x.2.2) else none)

/-- `heading.split('.')[0]`: the digit string in front of the first dot. -/
def numKey (heading : String) : String :=
  (splitOnChar '.' heading).headD ""

/-- The duplicate-section error (consistency_check.py lines 307-313). -/
def dupIssue (lineNum : Nat) (num : String) (firstLine : Nat) : Issue :=
  { severity := "error", file := "SKILL.md", line := some lineNum,
    message := "Duplicate section number '" ++ num ++ ".' (first seen at line "
      ++ toString firstLine ++ ")",
    suggestion := some "Renumber sections sequentially" }

/-- The per-level duplicate scan of `_check_section_numbering`: walk the
level's headings keeping `numbers_seen` (first line of each number); a
repeated number emits one error at its own line citing the first line,
and `numbers_seen` is only written for first occurrences. -/
def dupIssuesGo (seen : List (String × Nat)) : List (Nat × String) → List Issue
  | [] => []
  | (ln, h) :: rest =>
    let num := numKey h
    match assoc seen num with
    | some firstLn => dupIssue ln num firstLn :: dupIssuesGo seen rest
    | none => dupIssuesGo ((num, ln) :: seen) rest

/-- The structural levels in order of first appearance: Python's
`defaultdict` keeps insertion order, so `heading_numbers.items()`
iterates levels in this order. -/
def firstDedup (seen : List Nat) : List Nat → List Nat
  | [] => []
  | a :: l => if a ∈ seen then firstDedup seen l else a :: firstDedup (a :: seen) l

/-- `SkillConsistencyChecker._check_section_numbering`
(consistency_check.py lines 284-315) on the index document's text: all
duplicate-section-number issues, grouped by structural level in first-
appearance order. -/
def check_section_numbering (content : String) : List Issue :=
  let hs := headingsOf content
  (firstDedup [] (hs.map (fun x => x.1))).flatMap (fun lvl =>
    dupIssuesGo [] (levelHeadings content lvl))

/-- The deprecated fields of `SkillConsistencyChecker.DEPRECATED_FIELDS`.
The source stores them in a Python `set`, whose iteration order is
unspecified (hash-dependent); the embedding fixes the written order,
which affects only the relative order of generic deprecation issues
within one block, nothing any theorem here depends on. -/
def depFields : List String := ["name", "skills", "permissions"]

/-- `SkillConsistencyChecker._get_deprecation_suggestion`. -/
def depSuggestion (field : String) : String :=
  if field = "name" then "Remove 'name:' - agent name comes from the filename"
  else if field = "skills" then
    "Remove 'skills:' - skills are loaded at runtime via the skill tool. Document when to load skills in agent instructions instead."
  else if field = "permissions" then
    "Rename to 'tools:' for tool enablement, or 'permission:' for access control patterns"
  else "Remove deprecated field '" ++ field ++ "'"

/-- The generic deprecated-field error (consistency_check.py lines
162-168). -/
def deprecatedIssue (file : String) (lineNum : Nat) (field : String) : Issue :=
  { severity := "error", file := file, line := some lineNum,
    message := "Deprecated field '" ++ field ++ ":' found in YAML example",
    suggestion := some (depSuggestion field) }

/-- The message of the plural-rename error. -/
def renameMsg : String := "Field 'permissions:' should be 'permission:' (singular)"

/-- The `permissions:`-should-be-`permission:` error (consistency_check.py
lines 174-180). -/
def renameIssue (file : String) (lineNum : Nat) : Issue :=
  { severity := "error", file := file, line := some lineNum,
    message := renameMsg,
    suggestion := some "Change 'permissions:' to 'permission:'" }

/-- `re.finditer(rf'^(\s*){field}:', yaml_content, re.MULTILINE)`: the
list of `field_line` values (`yaml_content[:match.start()].count('\n')`)
of the non-overlapping matches.  A match must start at a line start; its
`\s*` is forced to the whole whitespace run there (which may cross
newlines, so a match can start lines before the field); scanning resumes
after each match.  Fuel of one unit per character suffices. -/
def fieldMatchesGo (needle : List Char) : Nat → Nat → Bool → List Char → List Nat
  | 0, _, _, _ => []
  | _ + 1, _, _, [] => []
  | f + 1, nl, atStart, l@(c :: rest) =>
    if atStart then
      let m := wsRunLen l
      if prefixOf needle (l.drop m) then
        let consumed := m + needle.length
        nl :: fieldMatchesGo needle f (nl + (l.take consumed).count '\n') false
          (l.drop consumed)
      else
        fieldMatchesGo needle f (nl + if c == '\n' then 1 else 0) (c == '\n') rest
    else fieldMatchesGo needle f (nl + if c == '\n' then 1 else 0) (c == '\n') rest

/-- The `field_line` values of `^(\s*){field}:` over a YAML block's
text. -/
def fieldMatches (field : String) (yc : List Char) : List Nat :=
  fieldMatchesGo (field.toList ++ [':']) (yc.length + 1) 0 true yc

/-- The issues `_check_yaml_blocks` (consistency_check.py lines 138-180)
emits for one fenced block: one generic deprecated-field error per
`finditer` match of each deprecated field, at line
`block_start + field_line + 1`, then (from `re.search`, i.e. the first
match only) the plural-rename error. -/
def yamlBlockIssues (file : String) (blockStart : Nat) (yc : List Char) : List Issue :=
  (depFields.flatMap (fun fld =>
    (fieldMatches fld yc).map (fun fl => deprecatedIssue file (blockStart + fl + 1) fld)))
  ++ (match (fieldMatches "permissions" yc).head? with
      | some fl => [renameIssue file (blockStart + fl + 1)]
      | none => [])

/-- `` ```ya?ml `` case-insensitively (with `a?` backtracking), returning
what follows the tag. -/
def stripYamlTag (l : List Char) : Option (List Char) :=
  let noA := fun (r : List Char) =>
    match r with
    | m :: lc :: rr =>
      if m.toLower == 'm' && lc.toLower == 'l' then some rr else none
    | _ => none
  match l with
  | y :: rest =>
    if y.toLower == 'y' then
      match rest with
      | a :: m :: lc :: rr =>
        if a.toLower == 'a' && m.toLower == 'm' && lc.toLower == 'l' then some rr
        else noA rest
      | _ => noA rest
    else none
  | _ => none

/-- The first occurrence of a closing triple backtick: the non-greedy
`(.*?)` group and what follows the fence. -/
def splitAtFence : List Char → Option (List Char × List Char)
  | c1 :: c2 :: c3 :: rest =>
    if c1 == btick && c2 == btick && c3 == btick then some ([], rest)
    else (splitAtFence (c2 :: c3 :: rest)).map (fun p => (c1 :: p.1, p.2))
  | _ => none

/-- A full match of `` r'```ya?ml\s*\n(.*?)```' `` (DOTALL, IGNORECASE)
starting at `l`: the block's inner text and what follows the closing
fence.  A closing fence contains no whitespace, so whether one exists
downstream does not depend on which `\s*` candidate is taken, and the
greedy (longest) candidate decides the group start. -/
def yamlBlockAt (l : List Char) : Option (List Char × List Char) :=
  match l with
  | c1 :: c2 :: c3 :: rest =>
    if c1 == btick && c2 == btick && c3 == btick then
      match stripYamlTag rest with
      | some r1 =>
        match endWs r1 with
        | some r2 => splitAtFence r2
        | none => none
      | none => none
    else none
  | _ => none

/-- `re.finditer` over the whole document for the fenced-block pattern:
`(block_start, inner text)` per block, `block_start` being the newline
count before the opening fence plus one.  Fuel of one unit per character
suffices (each step consumes at least one character). -/
def scanYamlBlocks : Nat → Nat → List Char → List (Nat × List Char)
  | 0, _, _ => []
  | _ + 1, _, [] => []
  | f + 1, nl, l@(c :: rest) =>
    match yamlBlockAt l with
    | some (inner, after) =>
        let consumed := l.length - after.length
        (nl + 1, inner) ::
          scanYamlBlocks f (nl + (l.take consumed).count '\n') after
    | none => scanYamlBlocks f (nl + if c == '\n' then 1 else 0) rest

/-- `SkillConsistencyChecker._check_yaml_blocks(content, file_path, lines)`
(consistency_check.py lines 138-180): every fenced YAML block's deprecated
and plural-rename issues. -/
def check_yaml_blocks (file content : String) : List Issue :=
  (scanYamlBlocks (content.length + 1) 0 content.toList).flatMap
    (fun b => yamlBlockIssues file b.1 b.2)

/-! ### Helper lemmas -/

/-- Invert one `Except` bind that ended in `ok`. -/
theorem bind_ok_inv {α β : Type} {x : Except PyFault α} {f : α → Except PyFault β} {b : β}
    (h : (x >>= f) = .ok b) : ∃ a, x = .ok a ∧ f a = .ok b := by
  cases x with
  | error e => simp [Bind.bind, Except.bind] at h
  | ok a => exact ⟨a, rfl, by simpa [Bind.bind, Except.bind] using h⟩

/-- A conditional deduction with a nonnegative magnitude is nonnegative. -/
theorem ite_deduction_nonneg (c : Prop) [Decidable c] (a : ℚ) (ha : 0 ≤ a) :
    0 ≤ if c then a else 0 := by
  split
  · exact ha
  · exact le_refl 0

/-- Flooring `5 - d` at zero lands in `[0, 5]` whenever `0 ≤ d`. -/
theorem floor_score_bounds (d : ℚ) (hd : 0 ≤ d) :
    0 ≤ max 0 (5 - d) ∧ max 0 (5 - d) ≤ 5 :=
  ⟨le_max_left 0 (5 - d), max_le (by norm_num) (by linarith)⟩

/-! ### Claim theorems -/

/-- C7: for every consistency report, `is_consistent` holds iff zero issues
have error severity; appending a warning- or info-severity issue never
changes the verdict; and the tree-scan exit status `print_report` returns
is 1 iff at least one error-severity issue exists. -/
theorem is_consistent_iff_no_errors (r : ConsistencyReport) :
    (r.is_consistent = true ↔
      (r.issues.filter (fun i => i.severity == "error")).length = 0) ∧
    (∀ i : Issue, i.severity ≠ "error" →
      (ConsistencyReport.mk (r.issues ++ [i]) r.files_checked r.yaml_blocks_checked).is_consistent
        = r.is_consistent) ∧
    (print_report_exit r = 1 ↔ ∃ i ∈ r.issues, i.severity = "error") := by
  have key : r.is_consistent = true ↔ ∀ i ∈ r.issues, ¬ i.severity = "error" := by
    simp [ConsistencyReport.is_consistent, ConsistencyReport.errors,
      List.length_eq_zero, List.filter_eq_nil_iff]
  refine ⟨?_, ?_, ?_⟩
  · simp [ConsistencyReport.is_consistent, ConsistencyReport.errors]
  · intro i hi
    have : (i.severity == "error") = false := by
      simpa using hi
    simp [ConsistencyReport.is_consistent, ConsistencyReport.errors,
      List.filter_append, List.filter, this]
  · unfold print_report_exit
    by_cases h : r.is_consistent = true
    · simp only [h, if_true]
      rw [key] at h
      constructor
      · intro h10; exact absurd h10.symm (by norm_num)
      · intro ⟨i, hmem, hsev⟩
        exact absurd hsev (h i hmem)
    · simp only [h, if_false]
      rw [key] at h
      push_neg at h
      obtain ⟨i, hmem, hsev⟩ := h
      exact ⟨fun _ => ⟨i, hmem, hsev⟩, fun _ => rfl⟩

/-- C1 (counterexample): a tools map enabling bash whose bash permission
map has a deny entry but no wildcard-ask default.  The code classifies it
HIGH, while the claim's cascade (with its "lacks **both** a deny entry and
a wildcard ask default" HIGH test) falls through to LOW; so the code does
not implement the claimed cascade, and the claimed LOW classification for
this very document is false. -/
theorem assess_risk_level_spec_cascade_cex :
    assess_risk_level (.map [("bash", .bool true)])
        (.map [("bash", .map [("rm -rf *", .str "deny")])]) = .ok .HIGH ∧
    specRiskCascade [("bash", .bool true)] [("bash", .map [("rm -rf *", .str "deny")])]
      = .LOW ∧
    Risk.HIGH ≠ Risk.LOW :=
  ⟨rfl, rfl, by simp⟩

/-- C1 (amended): the risk assessor implements the cascade with the HIGH
condition corrected from "lacks both" to "lacks either": for every tools
map and permission map, the result is HIGH if run-command (bash) is
enabled and its permission entry is missing, is not a pattern map, or
lacks a deny entry **or** a wildcard default set to ask; MEDIUM if
run-command is enabled with both a deny entry and a wildcard ask default;
MEDIUM if write/edit is enabled without run-command; LOW otherwise,
evaluated top-to-bottom returning on first match. -/
theorem assess_risk_level_amended_cascade (t p : List (String × Yaml)) :
    assess_risk_level (.map t) (.map p) = .ok (amendedRiskCascade t p) := by
  unfold assess_risk_level amendedRiskCascade
  simp only [dynGet, dynGetD, lookupD, bind, Except.bind, pure, Except.pure]
  cases hb : ((assoc t "bash").getD Yaml.null).truthy
  · simp only [Bool.false_eq_true, if_false]
    by_cases hw : ((assoc t "write").getD Yaml.null).truthy = true <;>
      by_cases he : ((assoc t "edit").getD Yaml.null).truthy = true <;>
        simp [hw, he]
  · simp only [ite_true]
    cases hbp : (assoc p "bash").getD (Yaml.map []) <;> simp [hbp]
    case map es => split <;> rfl

/-- C2 (counterexample): a capability map enabling read and write without
run-command and with no permission block is classified MEDIUM by the risk
assessor (write/edit without run-command), not LOW as the claim states. -/
theorem read_write_no_bash_risk_cex :
    assess_risk_level (.map [("read", .bool true), ("write", .bool true)]) (.map [])
      = .ok .MEDIUM ∧
    assess_risk_level (.map [("read", .bool true), ("write", .bool true)]) (.map [])
      ≠ .ok .LOW :=
  ⟨rfl, by intro h; rw [show assess_risk_level (.map [("read", .bool true), ("write", .bool true)]) (.map []) = .ok .MEDIUM from rfl] at h; simp at h⟩

/-- C2 (amended): for every capability map that enables read and write and
does not enable run-command, with no permission block, the tool-safety
rule applies no write-without-read deduction (read is present), and the
risk assessor classifies the document MEDIUM (write/edit enabled without
run-command), not LOW. -/
theorem read_write_no_bash_risk (t : List (String × Yaml))
    (hr : assoc t "read" = some (.bool true))
    (hw : assoc t "write" = some (.bool true))
    (hb : (lookupD t "bash").truthy = false) :
    dWriteNoRead t = 0 ∧ assess_risk_level (.map t) (.map []) = .ok .MEDIUM := by
  constructor
  · unfold dWriteNoRead lookupD
    rw [hr]
    simp [Yaml.truthy]
  · unfold assess_risk_level
    simp only [lookupD] at hb
    simp only [dynGet, bind, Except.bind, pure, Except.pure, hb, Bool.false_eq_true,
      if_false, hw]
    simp [Yaml.truthy]

/-- C2 (witness): the two-capability read/write document itself. -/
theorem read_write_no_bash_risk_w :
    (assoc [("read", Yaml.bool true), ("write", Yaml.bool true)] "read"
        = some (.bool true) ∧
      assoc [("read", Yaml.bool true), ("write", Yaml.bool true)] "write"
        = some (.bool true) ∧
      (lookupD [("read", Yaml.bool true), ("write", Yaml.bool true)] "bash").truthy
        = false) ∧
    (dWriteNoRead [("read", Yaml.bool true), ("write", Yaml.bool true)] = 0 ∧
      assess_risk_level (.map [("read", Yaml.bool true), ("write", Yaml.bool true)])
        (.map []) = .ok .MEDIUM) :=
  ⟨⟨rfl, rfl, rfl⟩,
    read_write_no_bash_risk [("read", Yaml.bool true), ("write", Yaml.bool true)]
      rfl rfl rfl⟩

/-- With the 0.5 few-deny-patterns deduction fixed and the other security
deductions nonnegative, the floored score is at most 4.5. -/
theorem security_bound_any (a b c : ℚ) (ha : 0 ≤ a) (hb : 0 ≤ b) (hc : 0 ≤ c) :
    max 0 (5 - (a + 1/2) - b - c) ≤ 9/2 :=
  max_le (by norm_num) (by linarith)

/-- With the 1.5 safety-keyword deduction also firing, the floored score
is at most 3.5. -/
theorem security_bound_few (b c : ℚ) (hb : 0 ≤ b) (hc : 0 ≤ c) :
    max 0 (5 - (3/2 + 1/2) - b - c) ≤ 7/2 :=
  max_le (by norm_num) (by linarith)

/-- C3 (counterexample): a document enabling run-command with no permission
block whose body contains three of the safety keywords scores 4.5 in the
security category — above the 3.5 bound the claim asserts "regardless of
the body text" (only the few-deny-patterns deduction of 0.5 fires). -/
theorem bash_no_permission_security_cex :
    audit_security (.map [("tools", .map [("bash", .bool true)])])
        "safety confirm always secret" = .ok (9/2) ∧
    ¬ ((9/2 : ℚ) ≤ 7/2) := by
  constructor
  · simp +decide only [audit_security, securityBashDeduction, dynGetD, dynGet, bind,
      Except.bind, pure, Except.pure, assoc, Yaml.truthy, safetyCount,
      safetyKeywords, List.filter, Option.getD, reduceIte]
    norm_num [max_def]
  · norm_num

/-- C3 (amended): for every document whose frontmatter enables run-command
in its tools map and has no permission entry, the security category score
is at most 4.5 (the fewer-than-two-deny-patterns deduction always fires),
and at most 3.5 whenever the body contains fewer than three of the seven
safety keywords; the risk tier is HIGH. -/
theorem bash_no_permission_security (fmEs tEs : List (String × Yaml)) (body : String)
    (ht : assoc fmEs "tools" = some (.map tEs))
    (hp : assoc fmEs "permission" = none)
    (hb : (lookupD tEs "bash").truthy = true) :
    (∃ s : ℚ, audit_security (.map fmEs) body = .ok s ∧ s ≤ 9/2 ∧
      (safetyCount (pyLowerStr body) < 3 → s ≤ 7/2)) ∧
    assess_risk_level (.map tEs) (.map []) = .ok .HIGH := by
  simp only [lookupD] at hb
  constructor
  · unfold audit_security
    simp only [securityBashDeduction, dynGetD, dynGet, ht, hp, Option.getD_some,
      Option.getD_none, bind, Except.bind, pure, Except.pure, hb, if_true, assoc,
      List.filter_nil, List.length_nil]
    have hc : (if (0:Nat) < 2 then (1/2:ℚ) else 0) = 1/2 := by norm_num
    rw [hc]
    refine ⟨_, rfl, ?_, ?_⟩
    · exact security_bound_any _ _ _ (ite_deduction_nonneg _ _ (by norm_num))
        (ite_deduction_nonneg _ _ (by norm_num)) (ite_deduction_nonneg _ _ (by norm_num))
    · intro hcnt
      rw [if_pos hcnt]
      exact security_bound_few _ _ (ite_deduction_nonneg _ _ (by norm_num))
        (ite_deduction_nonneg _ _ (by norm_num))
  · unfold assess_risk_level
    simp only [dynGet, dynGetD, bind, Except.bind, pure, Except.pure, hb, if_true,
      assoc, Option.getD_none, hasDenyEntry, List.any_nil, Bool.false_and,
      Bool.false_eq_true, if_false]

/-- C3 (witness): the minimal bash-enabled document with no permission
block and an empty body. -/
theorem bash_no_permission_security_w :
    (assoc [("tools", Yaml.map [("bash", Yaml.bool true)])] "tools"
        = some (.map [("bash", Yaml.bool true)]) ∧
      assoc [("tools", Yaml.map [("bash", Yaml.bool true)])] "permission" = none ∧
      (lookupD [("bash", Yaml.bool true)] "bash").truthy = true) ∧
    ((∃ s : ℚ, audit_security (.map [("tools", Yaml.map [("bash", Yaml.bool true)])]) ""
        = .ok s ∧ s ≤ 9/2 ∧ (safetyCount (pyLowerStr "") < 3 → s ≤ 7/2)) ∧
      assess_risk_level (.map [("bash", Yaml.bool true)]) (.map []) = .ok .HIGH) :=
  ⟨⟨rfl, rfl, rfl⟩,
    bash_no_permission_security [("tools", Yaml.map [("bash", Yaml.bool true)])]
      [("bash", Yaml.bool true)] "" rfl rfl rfl⟩

/-- C9: the document `---\nhello\n---\nbody` is split by the extractor into
the metadata text `hello` (which the YAML parser returns as the plain
string `"hello"`, not a mapping) and the body; `audit` then reaches
`frontmatter.get('description', '')` on that non-mapping value and raises
an uncaught `AttributeError` instead of returning a result-carrying
failure object (`validate` reaches `frontmatter.get('description')` at
line 53 of validate_agent.py and raises identically). -/
theorem audit_nonmapping_frontmatter_fault :
    extract_frontmatter_split "---\nhello\n---\nbody" = some ("hello", "body") ∧
    audit (some (.str "hello")) "body" = .error .attributeError :=
  ⟨rfl, rfl⟩

/-- A successful association-list lookup returns an entry of the list. -/
theorem assoc_mem {α : Type} {l : List (String × α)} {k : String} {v : α}
    (h : assoc l k = some v) : (k, v) ∈ l := by
  induction l with
  | nil => simp [assoc] at h
  | cons a rest ih =>
    rw [show assoc (a :: rest) k = if a.1 = k then some a.2 else assoc rest k from rfl] at h
    split at h
    · rename_i heq
      injection h with hv
      have hkv : (k, v) = a := by
        rw [← heq, ← hv]
      rw [hkv]
      exact List.mem_cons_self a rest
    · exact List.mem_cons_of_mem a (ih h)

/-- C5: the tool/permission-safety category score equals 5.0 minus exactly
the claimed deductions, floored at 0.0, for every tools map and every
permission map whose values fit the schema (a pattern map or a non-empty
enum string): 1.0 if at least 9 capabilities are enabled true; if
run-command is enabled, 1.5 if no permission rule exists for it, else 0.5
if its permission map has no deny-valued entries plus 0.3 if it has no
wildcard `*` entry; 0.5 for write without read; 0.5 for edit without
read. -/
theorem tool_safety_deduction_table (tl pEs : List (String × Yaml))
    (hp : pEs.all (fun kv => schemaPermVal kv.2) = true) :
    audit_tool_safety (.map tl) (.map pEs) = .ok (specToolSafety tl pEs) := by
  unfold audit_tool_safety specToolSafety bashPermDeduction
  simp only [asItems, dynGet, dynGetD, bind, Except.bind, pure, Except.pure]
  by_cases hbash : (lookupD tl "bash").truthy = true
  · simp only [hbash, if_true]
    cases ha : assoc pEs "bash" with
    | none =>
      simp [Option.getD_none, Yaml.truthy]
    | some v =>
      have hv : schemaPermVal v = true := by
        have := List.all_eq_true.mp hp _ (assoc_mem ha)
        simpa using this
      cases v with
      | map es =>
        cases hes : es.isEmpty
        · have : (Yaml.map es).truthy = true := by
            simp [Yaml.truthy, hes]
          simp [Option.getD_some, this, hes]
        · have : (Yaml.map es).truthy = false := by
            simp [Yaml.truthy, hes]
          simp [Option.getD_some, this, hes]
      | str s2 =>
        have hs2 : (s2 != "") = true := by simpa [schemaPermVal] using hv
        have : (Yaml.str s2).truthy = true := by simp [Yaml.truthy, hs2]
        simp [Option.getD_some, this]
      | null => simp [schemaPermVal] at hv
      | bool b => simp [schemaPermVal] at hv
      | int n => simp [schemaPermVal] at hv
  · simp only [hbash, if_false]
    simp [Bool.not_eq_true] at hbash
    simp [hbash]

/-- C5 (witness): a bash/write/read document with a one-deny-pattern bash
permission map. -/
theorem tool_safety_deduction_table_w :
    ([("bash", Yaml.map [("rm -rf *", Yaml.str "deny")])].all
        (fun kv => schemaPermVal kv.2) = true) ∧
    audit_tool_safety
        (.map [("bash", Yaml.bool true), ("write", Yaml.bool true), ("read", Yaml.bool true)])
        (.map [("bash", Yaml.map [("rm -rf *", Yaml.str "deny")])])
      = .ok (specToolSafety
        [("bash", Yaml.bool true), ("write", Yaml.bool true), ("read", Yaml.bool true)]
        [("bash", Yaml.map [("rm -rf *", Yaml.str "deny")])]) :=
  ⟨rfl, tool_safety_deduction_table
    [("bash", Yaml.bool true), ("write", Yaml.bool true), ("read", Yaml.bool true)]
    [("bash", Yaml.map [("rm -rf *", Yaml.str "deny")])] rfl⟩

/-- Flooring `5` minus two nonnegative deductions lands in `[0, 5]`. -/
theorem floor2_bounds (a b : ℚ) (ha : 0 ≤ a) (hb : 0 ≤ b) :
    0 ≤ max 0 (5 - a - b) ∧ max 0 (5 - a - b) ≤ 5 :=
  ⟨le_max_left _ _, max_le (by norm_num) (by linarith)⟩

/-- Flooring `5` minus three nonnegative deductions lands in `[0, 5]`. -/
theorem floor3_bounds (a b c : ℚ) (ha : 0 ≤ a) (hb : 0 ≤ b) (hc : 0 ≤ c) :
    0 ≤ max 0 (5 - a - b - c) ∧ max 0 (5 - a - b - c) ≤ 5 :=
  ⟨le_max_left _ _, max_le (by norm_num) (by linarith)⟩

/-- Flooring `5` minus four nonnegative deductions lands in `[0, 5]`. -/
theorem floor4_bounds (a b c d : ℚ) (ha : 0 ≤ a) (hb : 0 ≤ b) (hc : 0 ≤ c)
    (hd : 0 ≤ d) :
    0 ≤ max 0 (5 - a - b - c - d) ∧ max 0 (5 - a - b - c - d) ≤ 5 :=
  ⟨le_max_left _ _, max_le (by norm_num) (by linarith)⟩

/-- Flooring `5` minus five nonnegative deductions lands in `[0, 5]`. -/
theorem floor5_bounds (a b c d e : ℚ) (ha : 0 ≤ a) (hb : 0 ≤ b) (hc : 0 ≤ c)
    (hd : 0 ≤ d) (he : 0 ≤ e) :
    0 ≤ max 0 (5 - a - b - c - d - e) ∧ max 0 (5 - a - b - c - d - e) ≤ 5 :=
  ⟨le_max_left _ _, max_le (by norm_num) (by linarith)⟩

/-- The description deduction of the frontmatter rule is nonnegative
whenever it evaluates. -/
theorem descDeduction_nonneg {desc : Yaml} {d : ℚ}
    (h : descDeduction desc = .ok d) : 0 ≤ d := by
  unfold descDeduction at h
  split at h
  · simp only [pure, Except.pure, Except.ok.injEq] at h
    rw [← h]
    norm_num
  · obtain ⟨n, hn, h⟩ := bind_ok_inv h
    obtain ⟨hex, hx, h⟩ := bind_ok_inv h
    obtain ⟨low, hl, h⟩ := bind_ok_inv h
    simp only [pure, Except.pure, Except.ok.injEq] at h
    rw [← h]
    have h1 : (0:ℚ) ≤ if n < 50 then (1/2:ℚ) else 0 :=
      ite_deduction_nonneg _ _ (by norm_num)
    have h2 : (0:ℚ) ≤ if (!hex) = true then (1/2:ℚ) else 0 :=
      ite_deduction_nonneg _ _ (by norm_num)
    have h3 : (0:ℚ) ≤ if (!triggerKeywords.any fun kw => strContains kw low) = true
        then (3/10:ℚ) else 0 :=
      ite_deduction_nonneg _ _ (by norm_num)
    linarith

/-- The mode deduction is nonnegative. -/
theorem modeDeduction_nonneg (mode : Yaml) : 0 ≤ modeDeduction mode := by
  unfold modeDeduction
  split
  · norm_num
  · exact le_refl 0

/-- The frontmatter-quality score lies in `[0, 5]` whenever the rule
evaluates. -/
theorem frontmatter_quality_bounds {fm : Yaml} {q : ℚ}
    (h : audit_frontmatter_quality fm = .ok q) : 0 ≤ q ∧ q ≤ 5 := by
  unfold audit_frontmatter_quality at h
  obtain ⟨desc, hdesc, h⟩ := bind_ok_inv h
  obtain ⟨dd, hdd, h⟩ := bind_ok_inv h
  obtain ⟨mode, hm, h⟩ := bind_ok_inv h
  simp only [pure, Except.pure, Except.ok.injEq] at h
  rw [← h]
  exact floor2_bounds _ _ (descDeduction_nonneg hdd) (modeDeduction_nonneg mode)

/-- The kitchen-sink deduction is nonnegative. -/
theorem dKitchenSink_nonneg (tl : List (String × Yaml)) : 0 ≤ dKitchenSink tl := by
  unfold dKitchenSink
  split
  · norm_num
  · exact le_refl 0

/-- The write-without-read deduction is nonnegative. -/
theorem dWriteNoRead_nonneg (tl : List (String × Yaml)) : 0 ≤ dWriteNoRead tl := by
  unfold dWriteNoRead
  split
  · norm_num
  · exact le_refl 0

/-- The edit-without-read deduction is nonnegative. -/
theorem dEditNoRead_nonneg (tl : List (String × Yaml)) : 0 ≤ dEditNoRead tl := by
  unfold dEditNoRead
  split
  · norm_num
  · exact le_refl 0

/-- The tool-safety score lies in `[0, 5]` whenever the rule evaluates. -/
theorem tool_safety_bounds {tools permission : Yaml} {q : ℚ}
    (h : audit_tool_safety tools permission = .ok q) : 0 ≤ q ∧ q ≤ 5 := by
  unfold audit_tool_safety at h
  obtain ⟨tl, htl, h⟩ := bind_ok_inv h
  obtain ⟨dB, hdB, h⟩ := bind_ok_inv h
  simp only [pure, Except.pure, Except.ok.injEq] at h
  rw [← h]
  have hd : 0 ≤ dB := by
    unfold bashPermDeduction at hdB
    split at hdB
    · obtain ⟨pb, hpb, hdB⟩ := bind_ok_inv hdB
      split at hdB
      · simp only [pure, Except.pure, Except.ok.injEq] at hdB
        rw [← hdB]
        norm_num
      · obtain ⟨bp, hbp, hdB⟩ := bind_ok_inv hdB
        cases bp <;>
          simp only [pure, Except.pure, Except.ok.injEq] at hdB <;>
            rw [← hdB]
        case map es =>
          have h1 : (0:ℚ) ≤ if (!hasDenyEntry es) = true then (1/2:ℚ) else 0 :=
            ite_deduction_nonneg _ _ (by norm_num)
          have h2 : (0:ℚ) ≤ if (!hasStarKey es) = true then (3/10:ℚ) else 0 :=
            ite_deduction_nonneg _ _ (by norm_num)
          linarith
    · simp only [pure, Except.pure, Except.ok.injEq] at hdB
      rw [← hdB]
  exact floor4_bounds _ _ _ _ (dKitchenSink_nonneg tl) hd
    (dWriteNoRead_nonneg tl) (dEditNoRead_nonneg tl)

/-- The fewer-than-two-deny-patterns deduction is nonnegative for every
permission value shape. -/
theorem denyCountDeduction_nonneg (bp : Yaml) :
    (0:ℚ) ≤ (match bp with
      | Yaml.map es =>
          if (es.filter (fun kv => kv.2.eqStr "deny")).length < 2
          then (1/2:ℚ) else 0
      | _ => 0) := by
  cases bp
  case map es => exact ite_deduction_nonneg _ _ (by norm_num)
  all_goals exact le_refl 0

/-- The security score lies in `[0, 5]` whenever the rule evaluates. -/
theorem security_bounds {fm : Yaml} {body : String} {q : ℚ}
    (h : audit_security fm body = .ok q) : 0 ≤ q ∧ q ≤ 5 := by
  unfold audit_security at h
  obtain ⟨tools, htools, h⟩ := bind_ok_inv h
  obtain ⟨permission, hperm, h⟩ := bind_ok_inv h
  obtain ⟨b, hb, h⟩ := bind_ok_inv h
  obtain ⟨dB, hdB, h⟩ := bind_ok_inv h
  obtain ⟨w, hw, h⟩ := bind_ok_inv h
  obtain ⟨r, hr, h⟩ := bind_ok_inv h
  simp only [pure, Except.pure, Except.ok.injEq] at h
  rw [← h]
  have hd : 0 ≤ dB := by
    unfold securityBashDeduction at hdB
    split at hdB
    · obtain ⟨bp, hbp, hdB⟩ := bind_ok_inv hdB
      simp only [pure, Except.pure, Except.ok.injEq] at hdB
      rw [← hdB]
      have h1 : (0:ℚ) ≤ if safetyCount (pyLowerStr body) < 3 then (3/2:ℚ) else 0 :=
        ite_deduction_nonneg _ _ (by norm_num)
      have h2 := denyCountDeduction_nonneg bp
      linarith
    · simp only [pure, Except.pure, Except.ok.injEq] at hdB
      rw [← hdB]
  have hdw : (0:ℚ) ≤ if (w.truthy && !strContains "overwrite" (pyLowerStr body) &&
      !strContains "exist" (pyLowerStr body)) = true then (1/2:ℚ) else 0 :=
    ite_deduction_nonneg _ _ (by norm_num)
  have hds : (0:ℚ) ≤ if ((r.truthy || b.truthy) &&
      !strContains "secret" (pyLowerStr body) &&
      !strContains "password" (pyLowerStr body) &&
      !strContains "credential" (pyLowerStr body)) = true then (3/10:ℚ) else 0 :=
    ite_deduction_nonneg _ _ (by norm_num)
  exact floor3_bounds _ _ _ hd hdw hds

/-- The instruction-quality score lies in `[0, 5]`. -/
theorem instruction_quality_bounds (body : String) :
    0 ≤ audit_instruction_quality body ∧ audit_instruction_quality body ≤ 5 := by
  simp only [audit_instruction_quality]
  exact floor5_bounds _ _ _ _ _
    (ite_deduction_nonneg _ _ (by norm_num)) (ite_deduction_nonneg _ _ (by norm_num))
    (ite_deduction_nonneg _ _ (by norm_num)) (ite_deduction_nonneg _ _ (by norm_num))
    (ite_deduction_nonneg _ _ (by norm_num))

/-- The documentation score lies in `[0, 5]`. -/
theorem documentation_bounds (body : String) :
    0 ≤ audit_documentation body ∧ audit_documentation body ≤ 5 := by
  simp only [audit_documentation]
  exact floor5_bounds _ _ _ _ _
    (ite_deduction_nonneg _ _ (by norm_num)) (ite_deduction_nonneg _ _ (by norm_num))
    (ite_deduction_nonneg _ _ (by norm_num)) (ite_deduction_nonneg _ _ (by norm_num))
    (ite_deduction_nonneg _ _ (by norm_num))

/-- C4: whenever the audit completes, it reports exactly five category
scores, each in `[0, 5]`, and the overall score is the arithmetic mean of
those five rounded to two decimals. -/
theorem audit_five_scores_mean (parsed : Option Yaml) (body : String)
    (sc : List (String × ℚ)) (ov : ℚ) (rk : Risk)
    (h : audit parsed body = .ok (.report sc ov rk)) :
    sc.length = 5 ∧ (∀ p ∈ sc, 0 ≤ p.2 ∧ p.2 ≤ 5) ∧
      ov = round2 ((sc.map Prod.snd).sum / 5) := by
  cases parsed with
  | none => simp [audit] at h
  | some fm =>
    simp only [audit] at h
    obtain ⟨s1, h1, h⟩ := bind_ok_inv h
    obtain ⟨tools, htools, h⟩ := bind_ok_inv h
    obtain ⟨perm, hperm, h⟩ := bind_ok_inv h
    obtain ⟨s2, h2, h⟩ := bind_ok_inv h
    obtain ⟨s4, h4, h⟩ := bind_ok_inv h
    obtain ⟨rk2, hrk, h⟩ := bind_ok_inv h
    simp only [pure, Except.pure, Except.ok.injEq, AuditOutcome.report.injEq] at h
    obtain ⟨hsc, hov, hrk2⟩ := h
    subst hsc
    refine ⟨rfl, ?_, ?_⟩
    · intro p hp
      simp only [List.mem_cons, List.not_mem_nil, or_false] at hp
      rcases hp with rfl | rfl | rfl | rfl | rfl
      · exact frontmatter_quality_bounds h1
      · exact tool_safety_bounds h2
      · exact instruction_quality_bounds body
      · exact security_bounds h4
      · exact documentation_bounds body
    · rw [← hov]
      congr 1
      simp only [List.map_cons, List.map_nil, List.sum_cons, List.sum_nil]
      ring

/-- The audit evaluated on the empty-frontmatter document with body
`"body"`: the five scores, their rounded mean and the LOW risk tier. -/
theorem audit_body_eval :
    audit (some (.map [])) "body" = .ok (.report
      [("frontmatter_quality", 3), ("tool_safety", 5), ("instruction_quality", 11/5),
       ("security", 5), ("documentation", 27/10)] (179/50) .LOW) := by
  simp +decide only [audit, audit_frontmatter_quality, descDeduction, modeDeduction,
    audit_tool_safety, bashPermDeduction, dKitchenSink, dWriteNoRead, dEditNoRead,
    enabledTrueCount, audit_instruction_quality, audit_security,
    securityBashDeduction, audit_documentation, assess_risk_level, dynGet, dynGetD,
    asItems, assoc, lookupD, Yaml.truthy, pyLen, pyContains, pyLower, safetyCount,
    safetyKeywords, triggerKeywords, bind, Except.bind, pure, Except.pure,
    Option.getD, List.filter, reduceIte]
  norm_num [round2, roundHalfEven, max_def]

/-- C4 (witness): the audit of the empty-frontmatter document. -/
theorem audit_five_scores_mean_w :
    ([("frontmatter_quality", (3:ℚ)), ("tool_safety", 5), ("instruction_quality", 11/5),
      ("security", 5), ("documentation", 27/10)].length = 5 ∧
    (∀ p ∈ [("frontmatter_quality", (3:ℚ)), ("tool_safety", 5),
        ("instruction_quality", 11/5), ("security", 5), ("documentation", 27/10)],
      0 ≤ p.2 ∧ p.2 ≤ 5) ∧
    (179/50 : ℚ) = round2
      (([("frontmatter_quality", (3:ℚ)), ("tool_safety", 5), ("instruction_quality", 11/5),
        ("security", 5), ("documentation", 27/10)].map Prod.snd).sum / 5)) :=
  audit_five_scores_mean (some (.map [])) "body" _ _ _ audit_body_eval

/-- A successful numbered-heading match has structural level 2, 3 or 4. -/
theorem heading_level_range {line : String} {m : Nat × String × String}
    (h : matchNumberedHeading line = some m) : m.1 = 2 ∨ m.1 = 3 ∨ m.1 = 4 := by
  simp only [matchNumberedHeading] at h
  split at h
  · exact absurd h (by simp)
  · rename_i hguard
    split at h
    · exact absurd h (by simp)
    · split at h
      · split at h
        · injection h with hm
          rw [← hm]
          simp only [Bool.or_eq_true, not_or, decide_eq_true_eq] at hguard
          omega
        · exact absurd h (by simp)
      · exact absurd h (by simp)

/-- Every collected heading sits at a structural level in {2, 3, 4}. -/
theorem headingsOf_level_range (content : String) :
    ∀ x ∈ headingsOf content, x.1 = 2 ∨ x.1 = 3 ∨ x.1 = 4 := by
  intro x hx
  unfold headingsOf at hx
  rw [List.mem_filterMap] at hx
  obtain ⟨p, hp, hfx⟩ := hx
  cases hm : matchNumberedHeading p.2 with
  | none => rw [hm] at hfx; exact absurd hfx (by simp)
  | some m =>
    rw [hm] at hfx
    simp only [Option.map] at hfx
    injection hfx with hfx
    rw [← hfx]
    exact heading_level_range hm

/-- A level's heading scan emits nothing when the level's numbers are
distinct and none is already in `numbers_seen`. -/
theorem dupIssuesGo_nil (hs : List (Nat × String)) (seen : List (String × Nat))
    (hseen : ∀ p ∈ hs, assoc seen (numKey p.2) = none)
    (hnd : (hs.map (fun p => numKey p.2)).Nodup) :
    dupIssuesGo seen hs = [] := by
  induction hs generalizing seen with
  | nil => rfl
  | cons ph rest ih =>
    obtain ⟨ln, h⟩ := ph
    simp only [List.map_cons, List.nodup_cons] at hnd
    simp only [dupIssuesGo]
    rw [show assoc seen (numKey h) = none from hseen (ln, h) (List.mem_cons_self _ _)]
    apply ih
    · intro p hp
      have hne : numKey h ≠ numKey p.2 := by
        intro hcontra
        exact hnd.1 (hcontra ▸ List.mem_map_of_mem (fun p => numKey p.2) hp)
      rw [show assoc ((numKey h, ln) :: seen) (numKey p.2)
          = if numKey h = numKey p.2 then some ln else assoc seen (numKey p.2) from rfl]
      rw [if_neg hne]
      exact hseen p (List.mem_cons_of_mem _ hp)
    · exact hnd.2

/-- Two same-number headings at one level yield exactly the one duplicate
error, at the second line, citing the first. -/
theorem dupIssuesGo_pair (l1 l2 : Nat) (h1 h2 : String)
    (hq : numKey h1 = numKey h2) :
    dupIssuesGo [] [(l1, h1), (l2, h2)] = [dupIssue l2 (numKey h2) l1] := by
  simp only [dupIssuesGo]
  rw [show assoc ([] : List (String × Nat)) (numKey h1) = none from rfl]
  simp only [dupIssuesGo]
  rw [show assoc [(numKey h1, l1)] (numKey h2)
      = if numKey h1 = numKey h2 then some l1 else none from rfl]
  rw [if_pos hq]

/-- Membership in the insertion-ordered dedup. -/
theorem mem_firstDedup (l : List Nat) (seen : List Nat) (x : Nat) :
    x ∈ firstDedup seen l ↔ x ∈ l ∧ x ∉ seen := by
  induction l generalizing seen with
  | nil => simp [firstDedup]
  | cons a rest ih =>
    simp only [firstDedup]
    by_cases ha : a ∈ seen
    · rw [if_pos ha, ih seen]
      simp only [List.mem_cons]
      constructor
      · exact fun ⟨hx, hs⟩ => ⟨Or.inr hx, hs⟩
      · rintro ⟨heq | hx, hs⟩
        · exact absurd (heq ▸ ha) hs
        · exact ⟨hx, hs⟩
    · rw [if_neg ha]
      simp only [List.mem_cons, ih (a :: seen), List.mem_cons]
      constructor
      · rintro (heq | ⟨hx, hn⟩)
        · exact ⟨Or.inl heq, heq ▸ ha⟩
        · exact ⟨Or.inr hx, fun hc => hn (Or.inr hc)⟩
      · rintro ⟨heq | hx, hs⟩
        · exact Or.inl heq
        · by_cases hxa : x = a
          · exact Or.inl hxa
          · exact Or.inr ⟨hx, fun hc => hc.elim hxa hs⟩

/-- The insertion-ordered dedup has no duplicates. -/
theorem nodup_firstDedup (l : List Nat) (seen : List Nat) :
    (firstDedup seen l).Nodup := by
  induction l generalizing seen with
  | nil => exact List.nodup_nil
  | cons a rest ih =>
    simp only [firstDedup]
    by_cases ha : a ∈ seen
    · rw [if_pos ha]
      exact ih seen
    · rw [if_neg ha]
      refine List.nodup_cons.mpr ⟨?_, ih (a :: seen)⟩
      intro hcontra
      exact ((mem_firstDedup rest (a :: seen) a).mp hcontra).2 (List.mem_cons_self a seen)

/-- Flattening a duplicate-free level list in which exactly one level
produces issues. -/
theorem flatMap_single {α : Type} (ls : List Nat) (f : Nat → List α) (x : Nat)
    (r : List α) (hnd : ls.Nodup) (hmem : x ∈ ls)
    (hother : ∀ y ∈ ls, y ≠ x → f y = []) (hx : f x = r) :
    ls.flatMap f = r := by
  induction ls with
  | nil => exact absurd hmem (List.not_mem_nil x)
  | cons b rest ih =>
    rw [List.flatMap_cons]
    rcases List.mem_cons.mp hmem with heq | hmem2
    · subst heq
      have hrest : rest.flatMap f = [] := by
        rw [List.flatMap_eq_nil_iff]
        intro y hy
        exact hother y (List.mem_cons_of_mem _ hy)
          (fun hc => (List.nodup_cons.mp hnd).1 (hc ▸ hy))
      rw [hx, hrest, List.append_nil]
    · have hb : f b = [] :=
        hother b (List.mem_cons_self b rest)
          (fun hc => (List.nodup_cons.mp hnd).1 (hc ▸ hmem2))
      rw [hb, List.nil_append]
      exact ih (List.nodup_cons.mp hnd).2 hmem2
        (fun y hy hne => hother y (List.mem_cons_of_mem _ hy) hne)

/-- C6: when the index document's numbered headings at structural level
`lvl` are exactly two entries with the same number string (at lines `l1`
then `l2`), and any other level repeats no number, the section-numbering
check produces exactly one issue: an error located at the second
occurrence's line `l2` whose message cites the first occurrence's line
`l1`. -/
theorem section_numbering_duplicate (content : String) (lvl l1 l2 : Nat)
    (h1 h2 : String)
    (hlv : levelHeadings content lvl = [(l1, h1), (l2, h2)])
    (hnum : numKey h1 = numKey h2)
    (hoth : ∀ m ∈ ([2, 3, 4] : List Nat), m ≠ lvl →
      ((levelHeadings content m).map (fun p => numKey p.2)).Nodup) :
    check_section_numbering content = [dupIssue l2 (numKey h2) l1] := by
  simp only [check_section_numbering]
  apply flatMap_single _ _ lvl
  · exact nodup_firstDedup _ _
  · rw [mem_firstDedup]
    refine ⟨?_, List.not_mem_nil lvl⟩
    have hne : levelHeadings content lvl ≠ [] := by
      rw [hlv]
      simp
    by_contra hcontra
    apply hne
    unfold levelHeadings
    rw [List.filterMap_eq_nil_iff]
    intro x hx
    have hxlvl : ¬ x.1 = lvl := fun heq =>
      hcontra (heq ▸ List.mem_map_of_mem (fun x => x.1) hx)
    simp [hxlvl]
  · intro y hy hyne
    have hy3 : y ∈ ([2, 3, 4] : List Nat) := by
      obtain ⟨hin, _⟩ := (mem_firstDedup _ _ y).mp hy
      obtain ⟨x, hx, hxy⟩ := List.mem_map.mp hin
      have hr := headingsOf_level_range content x hx
      rw [hxy] at hr
      simp only [List.mem_cons, List.not_mem_nil, or_false]
      omega
    exact dupIssuesGo_nil _ _ (fun p _ => rfl) (hoth y hy3 hyne)
  · rw [hlv]
    exact dupIssuesGo_pair l1 l2 h1 h2 hnum

/-- C6 (witness): `## Intro`, then `### 2. Foo` at line 2 and `### 2. Bar`
at line 4. -/
theorem section_numbering_duplicate_w :
    (levelHeadings "## Intro\n### 2. Foo\ntext\n### 2. Bar" 3
        = [(2, "2. Foo"), (4, "2. Bar")] ∧
      numKey "2. Foo" = numKey "2. Bar" ∧
      (∀ m ∈ ([2, 3, 4] : List Nat), m ≠ 3 →
        ((levelHeadings "## Intro\n### 2. Foo\ntext\n### 2. Bar" m).map
          (fun p => numKey p.2)).Nodup)) ∧
    check_section_numbering "## Intro\n### 2. Foo\ntext\n### 2. Bar"
      = [dupIssue 4 (numKey "2. Bar") 2] :=
  ⟨⟨by decide, by decide, by decide⟩,
    section_numbering_duplicate "## Intro\n### 2. Foo\ntext\n### 2. Bar" 3 2 4
      "2. Foo" "2. Bar" (by decide) (by decide) (by decide)⟩

/-- C10 (counterexample): a YAML block with two `permissions:` lines.  The
generic deprecated-field errors fire at both lines (2 and 3), but the
singular-rename check uses `re.search`, so only the first line gets the
second error: line 3 carries exactly one issue, not two. -/
theorem permissions_block_issues_cex :
    check_yaml_blocks "f.md" "```yaml\npermissions: ask\npermissions: deny\n```\n"
      = [deprecatedIssue "f.md" 2 "permissions",
         deprecatedIssue "f.md" 3 "permissions",
         renameIssue "f.md" 2] ∧
    ((check_yaml_blocks "f.md"
        "```yaml\npermissions: ask\npermissions: deny\n```\n").filter
      (fun i => i.line == some 3)).length = 1 :=
  ⟨by decide, by decide⟩

/-- C10 (amended): for the **first** `^(\s*)permissions:` match in a fenced
YAML block, the scanner emits two distinct error issues at the same line
(the generic deprecated-field error and the singular-rename error); the
rename error is emitted for that first match only, so later `permissions:`
lines in the block receive only the generic error. -/
theorem permissions_block_issues (file : String) (bs : Nat) (yc : List Char)
    (f0 : Nat) (rest : List Nat)
    (h : fieldMatches "permissions" yc = f0 :: rest) :
    deprecatedIssue file (bs + f0 + 1) "permissions" ∈ yamlBlockIssues file bs yc ∧
    renameIssue file (bs + f0 + 1) ∈ yamlBlockIssues file bs yc ∧
    deprecatedIssue file (bs + f0 + 1) "permissions" ≠ renameIssue file (bs + f0 + 1) ∧
    (yamlBlockIssues file bs yc).filter (fun i => i.message == renameMsg)
      = [renameIssue file (bs + f0 + 1)] := by
  have hdep : (deprecatedIssue file (bs + f0 + 1) "permissions")
      ∈ depFields.flatMap (fun fld => (fieldMatches fld yc).map
        (fun fl => deprecatedIssue file (bs + fl + 1) fld)) := by
    rw [List.mem_flatMap]
    refine ⟨"permissions", by simp [depFields], ?_⟩
    rw [h]
    exact List.mem_map_of_mem _ (List.mem_cons_self f0 rest)
  refine ⟨?_, ?_, ?_, ?_⟩
  · exact List.mem_append_left _ hdep
  · apply List.mem_append_right
    rw [h]
    simp
  · intro hcontra
    have hmsg := congrArg Issue.message hcontra
    exact absurd
      (show ("Deprecated field 'permissions:' found in YAML example" : String)
        = renameMsg from hmsg) (by decide)
  · rw [yamlBlockIssues, List.filter_append]
    have hleft : (depFields.flatMap (fun fld => (fieldMatches fld yc).map
        (fun fl => deprecatedIssue file (bs + fl + 1) fld))).filter
        (fun i => i.message == renameMsg) = [] := by
      rw [List.filter_eq_nil_iff]
      intro i hi
      rw [List.mem_flatMap] at hi
      obtain ⟨fld, hfld, hi⟩ := hi
      obtain ⟨fl, _, hival⟩ := List.mem_map.mp hi
      rw [← hival]
      simp only [depFields, List.mem_cons, List.not_mem_nil, or_false] at hfld
      rcases hfld with rfl | rfl | rfl
      · exact fun hc => absurd
          (show (("Deprecated field '" ++ "name" ++ ":' found in YAML example" : String)
            == renameMsg) = true from hc) (by decide)
      · exact fun hc => absurd
          (show (("Deprecated field '" ++ "skills" ++ ":' found in YAML example" : String)
            == renameMsg) = true from hc) (by decide)
      · exact fun hc => absurd
          (show (("Deprecated field '" ++ "permissions" ++ ":' found in YAML example" : String)
            == renameMsg) = true from hc) (by decide)
    rw [hleft, List.nil_append, h]
    have hself : ((renameIssue file (bs + f0 + 1)).message == renameMsg) = true := by
      simp [renameIssue]
    simp only [List.head?_cons, List.filter, hself]

/-- C10 (witness): a block whose only line is `permissions: ask`, at block
start 1. -/
theorem permissions_block_issues_w :
    (fieldMatches "permissions" "permissions: ask".toList = 0 :: []) ∧
    (deprecatedIssue "f.md" (1 + 0 + 1) "permissions"
        ∈ yamlBlockIssues "f.md" 1 "permissions: ask".toList ∧
      renameIssue "f.md" (1 + 0 + 1)
        ∈ yamlBlockIssues "f.md" 1 "permissions: ask".toList ∧
      deprecatedIssue "f.md" (1 + 0 + 1) "permissions"
        ≠ renameIssue "f.md" (1 + 0 + 1) ∧
      (yamlBlockIssues "f.md" 1 "permissions: ask".toList).filter
        (fun i => i.message == renameMsg) = [renameIssue "f.md" (1 + 0 + 1)]) :=
  ⟨by decide,
    permissions_block_issues "f.md" 1 "permissions: ask".toList 0 [] (by decide)⟩


/-- Inside a `takeWhile` run, indexing the source and the run agree. -/
theorem takeWhile_getElem? (p : Char → Bool) (t : List Char) (j : Nat)
    (hj : j < (t.takeWhile p).length) : t[j]? = (t.takeWhile p)[j]? := by
  induction t generalizing j with
  | nil => simp [List.takeWhile] at hj
  | cons c cs ih =>
    cases hp : p c
    · simp [List.takeWhile_cons, hp] at hj
    · cases j with
      | zero => simp [List.takeWhile_cons, hp]
      | succ j =>
        simp only [List.takeWhile_cons, hp, if_true, List.length_cons,
          Nat.succ_lt_succ_iff] at hj
        simp only [List.takeWhile_cons, hp, if_true, List.getElem?_cons_succ]
        exact ih j hj

/-- A run of `p`-characters followed by a failing character bounds the
`takeWhile` of any extension. -/
theorem takeWhile_break (p : Char → Bool) (w : List Char) (c : Char)
    (r : List Char) (hw : ∀ x ∈ w, p x = true) (hc : p c = false) :
    (w ++ c :: r).takeWhile p = w := by
  induction w with
  | nil => simp [List.takeWhile_cons, hc]
  | cons a wt ih =>
    have ha : p a = true := hw a (List.mem_cons_self a wt)
    simp only [List.cons_append, List.takeWhile_cons, ha, if_true,
      List.cons.injEq, true_and]
    exact ih (fun x hx => hw x (List.mem_cons_of_mem a hx))

/-- A list with a proper `takeWhile` prefix splits at its first failing
character. -/
theorem takeWhile_proper_split (p : Char → Bool) (l : List Char)
    (h : l.takeWhile p ≠ l) :
    ∃ c r, l = l.takeWhile p ++ c :: r ∧ p c = false := by
  induction l with
  | nil => simp at h
  | cons a t ih =>
    cases hp : p a
    · exact ⟨a, t, by simp [List.takeWhile_cons, hp], hp⟩
    · simp only [List.takeWhile_cons, hp, if_true] at h ⊢
      have ht : t.takeWhile p ≠ t := fun hcontra => h (by rw [hcontra])
      obtain ⟨c, r, hr, hpc⟩ := ih ht
      refine ⟨c, r, ?_, hpc⟩
      rw [List.cons_append, ← hr]

/-- When the whitespace after the leading newline contains no further
newline, the empty `\s*` candidate is the only feasible one. -/
theorem nlCands_cons_nl (t : List Char) (h : '\n' ∉ t.takeWhile isWs) :
    nlCands ('\n' :: t) = [0] := by
  have hws : wsRunLen ('\n' :: t) = (t.takeWhile isWs).length + 1 := by
    simp [wsRunLen, List.takeWhile_cons, isWs]
  unfold nlCands
  rw [hws, List.range_succ_eq_map, List.filter_cons]
  have h0 : ((('\n' :: t)[0]? == some '\n') = true) := by simp
  rw [if_pos h0, List.filter_map]
  have hfil : (List.range (t.takeWhile isWs).length).filter
      ((fun k => ('\n' :: t)[k]? == some '\n') ∘ fun x => x + 1) = [] := by
    rw [List.filter_eq_nil_iff]
    intro j hj
    rw [List.mem_range] at hj
    simp only [Function.comp_apply, List.getElem?_cons_succ]
    intro hcontra
    rw [beq_iff_eq] at hcontra
    have hagree := takeWhile_getElem? isWs t j (by omega)
    rw [hcontra] at hagree
    exact h (List.getElem?_mem hagree.symm)
  rw [hfil, List.map_nil]
  rfl

/-- `\s*\n(.*)` takes exactly the leading newline when no further newline
sits in the whitespace run. -/
theorem endWs_clean (t : List Char) (h : '\n' ∉ t.takeWhile isWs) :
    endWs ('\n' :: t) = some t := by
  unfold endWs
  rw [nlCands_cons_nl t h]
  rfl

/-- The non-greedy group scans cleanly through metadata that contains no
newline-then-`---` sequence and stops at the real closing delimiter. -/
theorem scanEnd_through (metaL bodyL : List Char)
    (hnd : containsSub ['\n', '-', '-', '-'] metaL = false)
    (h3 : '\n' ∉ bodyL.takeWhile isWs) :
    scanEnd (metaL ++ '\n' :: '-' :: '-' :: '-' :: '\n' :: bodyL)
      = some (metaL, bodyL) := by
  induction metaL with
  | nil =>
    rw [List.nil_append]
    show scanEnd ('\n' :: '-' :: '-' :: '-' :: '\n' :: bodyL) = some ([], bodyL)
    unfold scanEnd
    rw [if_pos (by simp)]
    rw [show ('-' :: '-' :: '-' :: '\n' :: bodyL).drop 3 = '\n' :: bodyL from rfl]
    rw [endWs_clean bodyL h3]
  | cons c ms ih =>
    have hnd' : containsSub ['\n', '-', '-', '-'] ms = false := by
      simp only [containsSub, Bool.or_eq_false_iff] at hnd
      exact hnd.2
    have hcond : (c == '\n' &&
        (ms ++ '\n' :: '-' :: '-' :: '-' :: '\n' :: bodyL).take 3
          == ['-', '-', '-']) = false := by
      cases hC : (c == '\n' &&
          (ms ++ '\n' :: '-' :: '-' :: '-' :: '\n' :: bodyL).take 3
            == ['-', '-', '-'])
      · rfl
      · exfalso
        rw [Bool.and_eq_true, beq_iff_eq, beq_iff_eq] at hC
        obtain ⟨hcn, htake⟩ := hC
        subst hcn
        match ms, htake with
        | [], htake => simp at htake
        | [m1], htake => simp at htake
        | [m1, m2], htake => simp at htake
        | m1 :: m2 :: m3 :: mr, htake =>
          simp only [List.cons_append, List.take_succ_cons, List.take_zero,
            List.cons.injEq, and_true] at htake
          obtain ⟨hm1, hm2, hm3⟩ := htake
          subst hm1
          subst hm2
          subst hm3
          simp [containsSub, prefixOf] at hnd
    rw [List.cons_append]
    unfold scanEnd
    rw [if_neg (by rw [hcond]; exact Bool.false_ne_true)]
    rw [ih hnd']
    rfl

/-- The full pattern after the opening `---` splits a clean document into
its metadata text and body. -/
theorem afterOpen_clean (metaL bodyL : List Char)
    (h1 : '\n' ∉ metaL.takeWhile isWs)
    (h1b : metaL.takeWhile isWs ≠ metaL)
    (h2 : containsSub ['\n', '-', '-', '-'] metaL = false)
    (h3 : '\n' ∉ bodyL.takeWhile isWs) :
    afterOpen ('\n' :: (metaL ++ '\n' :: '-' :: '-' :: '-' :: '\n' :: bodyL))
      = some (metaL, bodyL) := by
  obtain ⟨c, r, hdecomp, hc⟩ := takeWhile_proper_split isWs metaL h1b
  have hext : (metaL ++ '\n' :: '-' :: '-' :: '-' :: '\n' :: bodyL).takeWhile isWs
      = metaL.takeWhile isWs := by
    conv_lhs => rw [hdecomp]
    rw [List.append_assoc, List.cons_append]
    exact takeWhile_break isWs (metaL.takeWhile isWs) c _
      (fun x hx => List.mem_takeWhile_imp hx) hc
  unfold afterOpen
  rw [nlCands_cons_nl _ (by rw [hext]; exact h1)]
  unfold afterOpenGo
  rw [show (('\n' :: (metaL ++ '\n' :: '-' :: '-' :: '-' :: '\n' :: bodyL)).drop (0 + 1))
      = metaL ++ '\n' :: '-' :: '-' :: '-' :: '\n' :: bodyL from rfl]
  rw [scanEnd_through metaL bodyL h2 h3]

/-- C8 (amended): for every well-formed document
`---\n<meta>\n---\n<body>` in which (a) the metadata's first line has a
non-whitespace character, (b) the metadata contains no
newline-then-`---` sequence, and (c) the body's leading whitespace run
contains no newline, the extractor's regex split captures the
metadata-block text and the body verbatim — so re-joining the returned
pieces reconstructs the original document byte-for-byte. -/
theorem extract_frontmatter_roundtrip (meta body : String)
    (h1 : '\n' ∉ meta.toList.takeWhile isWs)
    (h1b : meta.toList.takeWhile isWs ≠ meta.toList)
    (h2 : containsSub ['\n', '-', '-', '-'] meta.toList = false)
    (h3 : '\n' ∉ body.toList.takeWhile isWs) :
    extract_frontmatter_split ("---\n" ++ meta ++ "\n---\n" ++ body)
      = some (meta, body) := by
  have hlist : ("---\n" ++ meta ++ "\n---\n" ++ body).toList
      = '-' :: '-' :: '-' ::
        ('\n' :: (meta.toList ++ '\n' :: '-' :: '-' :: '-' :: '\n' :: body.toList)) := by
    simp only [String.toList]
    rw [String.data_append, String.data_append, String.data_append]
    rw [show ("---\n" : String).data = ['-', '-', '-', '\n'] from rfl]
    rw [show ("\n---\n" : String).data = ['\n', '-', '-', '-', '\n'] from rfl]
    simp [List.append_assoc]
  unfold extract_frontmatter_split
  rw [hlist]
  show (afterOpen ('\n' :: (meta.toList ++ '\n' :: '-' :: '-' :: '-' :: '\n' :: body.toList))).map
      (fun p => (String.mk p.1, String.mk p.2)) = some (meta, body)
  rw [afterOpen_clean meta.toList body.toList h1 h1b h2 h3]
  rfl

/-- C8 (counterexample): a well-formed document whose metadata block opens
with a blank line.  The opening delimiter's greedy `\s*` swallows the
blank line, the returned metadata text is `key: value` instead of
`\nkey: value`, and re-joining the returned pieces does not reconstruct
the document byte-for-byte. -/
theorem extract_frontmatter_roundtrip_cex :
    extract_frontmatter_split "---\n\nkey: value\n---\nbody"
      = some ("key: value", "body") ∧
    "---\n" ++ "key: value" ++ "\n---\n" ++ "body"
      ≠ "---\n\nkey: value\n---\nbody" :=
  ⟨rfl, by decide⟩

/-- C8 (witness): a one-line metadata block and a plain body. -/
theorem extract_frontmatter_roundtrip_w :
    ('\n' ∉ "description: hi".toList.takeWhile isWs ∧
      "description: hi".toList.takeWhile isWs ≠ "description: hi".toList ∧
      containsSub ['\n', '-', '-', '-'] "description: hi".toList = false ∧
      '\n' ∉ "Body text\n".toList.takeWhile isWs) ∧
    extract_frontmatter_split ("---\n" ++ "description: hi" ++ "\n---\n" ++ "Body text\n")
      = some ("description: hi", "Body text\n") :=
  ⟨⟨by decide, by decide, by decide, by decide⟩,
    extract_frontmatter_roundtrip "description: hi" "Body text\n"
      (by decide) (by decide) (by decide) (by decide)⟩
